import Mathlib

/-!
Shallow embedding of the piccolo stereo-alignment core
(`src/stereo_align.py` and `src/camera.py`).

Floating-point arithmetic is idealised over a linear ordered field `K`
(instantiated at `ℚ` for concrete evaluations and at `ℝ` for the
trigonometric facts).  Python `float("inf")` is modelled by `⊤ : WithTop K`.
The OpenCV library calls (SIFT detection, FLANN matching, RANSAC,
`phaseCorrelate`, `warpAffine` resampling of frame pixels) are external to
the repository; their *outputs* are passed to the embedded functions as
explicit arguments, exactly at the boundaries where `stereo_align.py`
receives them, and the geometric semantics of `cv2.warpAffine` /
`cv2.invertAffineTransform` / `cv2.erode` on the all-255 mask images is
embedded directly (nearest-neighbour source lookup of the inverted affine
map, 5×5 erosion with the default border that does not constrain at the
image edge).  Likewise `math.cos` / `math.sin` / `math.sqrt` / `math.pi`
and the seeded `numpy` random draw are passed as parameters (`cosK`,
`sinK`, `sqrtK`, `piK`, `draw`) so that every definition stays executable;
theorems about the geometry instantiate them with `Real.cos`, `Real.sin`,
`Real.pi`.
-/

namespace Piccolo

/-- method field of `AlignmentResult` ("none" | "epipolar" | "phase"). -/
inductive Method where
  | none
  | epipolar
  | phase
deriving DecidableEq, Repr

/-- the `AlignmentResult` dataclass of `stereo_align.py`. -/
structure AlignmentResult (K : Type) where
  dy : K
  dtheta : K
  n_matches : Nat
  confidence : K
  timestamp : K
  method : Method
  rms_residual : WithTop K
deriving DecidableEq

/-- dataclass defaults of `AlignmentResult` (`rms_residual = float("inf")`). -/
def AlignmentResult.init {K : Type} [LinearOrderedField K] : AlignmentResult K :=
  { dy := 0, dtheta := 0, n_matches := 0, confidence := 0, timestamp := 0,
    method := Method.none, rms_residual := ⊤ }

/-- the `AlignmentCfg` dataclass of `config.py`. -/
structure AlignmentCfg (K : Type) where
  enabled : Bool
  interval_sec : K
  min_matches : Nat
  max_features : Nat
  match_ratio : K
  ransac_thresh : K
  max_correction_px : K
  max_correction_deg : K
  smoothing : K
  detection_scale : K
deriving DecidableEq

/-- field defaults of `AlignmentCfg` in `config.py`. -/
def defaultCfg {K : Type} [LinearOrderedField K] : AlignmentCfg K :=
  { enabled := true, interval_sec := 2, min_matches := 12, max_features := 1500,
    match_ratio := 3/4, ransac_thresh := 2, max_correction_px := 80,
    max_correction_deg := 2, smoothing := 1/4, detection_scale := 1/2 }

/-- a 2×3 affine matrix `[[m00, m01, m02], [m10, m11, m12]]`. -/
structure AffineMat (K : Type) where
  m00 : K
  m01 : K
  m02 : K
  m10 : K
  m11 : K
  m12 : K
deriving DecidableEq

section Geometry

variable {K : Type} [LinearOrderedField K]

/-- `StereoAligner._rotation_matrix(cx, cy, angle, ty)`: the 2×3 affine that
the code documents as "rotate by angle around (cx, cy) then translate
vertically by ty".  `cosK`/`sinK` abstract `math.cos`/`math.sin`. -/
def rotationMatrix (cosK sinK : K → K) (cx cy angle ty : K) : AffineMat K :=
  let c := cosK angle
  let s := sinK angle
  let tx := cx * (1 - c) + cy * s
  let tyRot := cy * (1 - c) - cx * s
  { m00 := c, m01 := -s, m02 := tx, m10 := s, m11 := c, m12 := tyRot + ty }

/-- forward application of a 2×3 affine matrix to a point. -/
def applyAffine (M : AffineMat K) (p : K × K) : K × K :=
  (M.m00 * p.1 + M.m01 * p.2 + M.m02, M.m10 * p.1 + M.m11 * p.2 + M.m12)

/-- `cv2.invertAffineTransform`: adjugate divided by the determinant, with
the OpenCV convention that a zero determinant yields the zero scale. -/
def invertAffine (M : AffineMat K) : AffineMat K :=
  let d := M.m00 * M.m11 - M.m01 * M.m10
  let di := if d = 0 then 0 else 1 / d
  let a00 := M.m11 * di
  let a01 := -M.m01 * di
  let a10 := -M.m10 * di
  let a11 := M.m00 * di
  let b0 := -(a00 * M.m02 + a01 * M.m12)
  let b1 := -(a10 * M.m02 + a11 * M.m12)
  { m00 := a00, m01 := a01, m02 := b0, m10 := a10, m11 := a11, m12 := b1 }

variable [FloorRing K]

/-- pixel (x, y) lies inside a w×h frame. -/
def inFrame (w h : Nat) (x y : Int) : Prop :=
  0 ≤ x ∧ x < (w : Int) ∧ 0 ≤ y ∧ y < (h : Int)

instance (w h : Nat) (x y : Int) : Decidable (inFrame w h x y) := by
  unfold inFrame; infer_instance

/-- source-image point that `cv2.warpAffine` samples for destination pixel
(x, y): the internally inverted matrix applied to the pixel. -/
def srcPoint (M : AffineMat K) (x y : Int) : K × K :=
  let iM := invertAffine M
  (iM.m00 * (x : K) + iM.m01 * (y : K) + iM.m02,
   iM.m10 * (x : K) + iM.m11 * (y : K) + iM.m12)

/-- one pixel of `cv2.warpAffine(ones*255, M, INTER_NEAREST, borderValue=0)`
as used by `_compute_overlap_mask`: true iff the rounded source point of the
destination pixel falls inside the frame. -/
def warpMaskAt (w h : Nat) (M : AffineMat K) (x y : Int) : Bool :=
  let p := srcPoint M x y
  decide (inFrame w h (round p.1) (round p.2))

/-- `cv2.bitwise_and(mask_l, mask_r)` at one pixel. -/
def overlapMaskAt (w h : Nat) (Ml Mr : AffineMat K) (x y : Int) : Bool :=
  warpMaskAt w h Ml x y && warpMaskAt w h Mr x y

/-- `cv2.erode(overlap, ones(5,5))` at one pixel: the pixel stays valid iff
every in-frame pixel of its 5×5 window is valid (the default morphology
border value for erosion is +∞, so window positions outside the frame do
not constrain).  This function is the `_overlap_mask` array. -/
def erodedMaskFn (w h : Nat) (Ml Mr : AffineMat K) : Int → Int → Bool := fun x y =>
  (List.range 5).all fun i =>
    (List.range 5).all fun j =>
      let px := x + (i : Int) - 2
      let py := y + (j : Int) - 2
      !(decide (inFrame w h px py)) || overlapMaskAt w h Ml Mr px py

end Geometry

section StateMachine

variable {K : Type} [LinearOrderedField K] [FloorRing K]

/-- mutable state of `StereoAligner`.  The pair of warp matrices is a single
`Option` because the code always sets and clears `_warp_l`/`_warp_r`
together; `overlap_mask` stores the eroded mask as a pixel predicate
(`_overlap_mask_3ch` is the same mask replicated over three channels and is
not modelled separately). -/
structure AlignerState (K : Type) where
  cfg : AlignmentCfg K
  frame_w : Nat
  frame_h : Nat
  result : AlignmentResult K
  smooth_dy : K
  smooth_dtheta : K
  warps : Option (AffineMat K × AffineMat K)
  overlap_mask : Option (Int → Int → Bool)
  last_update : K
  enabled : Bool
  update_count : Nat
  converged : Bool
  quality : WithTop K

/-- `StereoAligner.__init__`. -/
def initState (cfg : AlignmentCfg K) (w h : Nat) : AlignerState K :=
  { cfg := cfg, frame_w := w, frame_h := h, result := AlignmentResult.init,
    smooth_dy := 0, smooth_dtheta := 0, warps := Option.none,
    overlap_mask := Option.none, last_update := 0, enabled := cfg.enabled,
    update_count := 0, converged := false, quality := ⊤ }

/-- the `enabled` setter: stores the flag and, when disabling, clears the
warps, masks, smoothed correction, convergence, quality, counter and
published result. -/
def setEnabled (st : AlignerState K) (v : Bool) : AlignerState K :=
  let st1 := { st with enabled := v }
  if v = false then
    { st1 with
        warps := Option.none, overlap_mask := Option.none,
        smooth_dy := 0, smooth_dtheta := 0, converged := false, quality := ⊤,
        update_count := 0, result := AlignmentResult.init }
  else st1

/-- the `has_correction` property (`_warp_l is not None`). -/
def hasCorrection (st : AlignerState K) : Bool :=
  st.warps.isSome

/-- the adaptive interval computed inside `needs_update`: 0.5 s while not
converged and fewer than 20 updates have run, else `cfg.interval_sec`. -/
def intervalOf (st : AlignerState K) : K :=
  if st.converged = false ∧ st.update_count < 20 then 1/2 else st.cfg.interval_sec

/-- `StereoAligner.needs_update()` at monotonic time `t`. -/
def needsUpdate (t : K) (st : AlignerState K) : Bool :=
  st.enabled && decide (intervalOf st ≤ t - st.last_update)

/-- `StereoAligner.force_update()`: clears the last-update timestamp. -/
def forceUpdate (st : AlignerState K) : AlignerState K :=
  { st with last_update := 0 }

/-- `StereoAligner.reset()`. -/
def resetState (st : AlignerState K) : AlignerState K :=
  { st with
      smooth_dy := 0, smooth_dtheta := 0, warps := Option.none,
      overlap_mask := Option.none, result := AlignmentResult.init,
      last_update := 0, update_count := 0, converged := false, quality := ⊤ }

/-- `StereoAligner._build_warp_matrices` followed by
`_compute_overlap_mask`: split the smoothed correction in halves of
opposite sign and cache both warps plus the eroded overlap mask. -/
def buildWarpMatrices (cosK sinK : K → K) (st : AlignerState K) : AlignerState K :=
  let cx := (st.frame_w : K) / 2
  let cy := (st.frame_h : K) / 2
  let halfDy := st.smooth_dy / 2
  let halfTheta := st.smooth_dtheta / 2
  let wl := rotationMatrix cosK sinK cx cy halfTheta halfDy
  let wr := rotationMatrix cosK sinK cx cy (-halfTheta) (-halfDy)
  { st with
      warps := some (wl, wr),
      overlap_mask := some (erodedMaskFn st.frame_w st.frame_h wl wr) }

/-- `StereoAligner._apply_result`: exponential smoothing (heavier once
converged), republishes the smoothed estimate and rebuilds the warps. -/
def applyResult (cosK sinK : K → K) (st : AlignerState K) (r : AlignmentResult K) :
    AlignerState K :=
  let baseA := st.cfg.smoothing
  let a := if st.converged = true then min (baseA * (5/2)) (17/20) else baseA
  let sdy := a * st.smooth_dy + (1 - a) * r.dy
  let sdt := a * st.smooth_dtheta + (1 - a) * r.dtheta
  let res : AlignmentResult K :=
    { dy := sdy, dtheta := sdt, n_matches := r.n_matches,
      confidence := r.confidence, timestamp := r.timestamp, method := r.method,
      rms_residual := r.rms_residual }
  buildWarpMatrices cosK sinK
    { st with smooth_dy := sdy, smooth_dtheta := sdt, result := res }

/-- `StereoAligner.update` at monotonic time `t`.  The downscaling, CLAHE
and the two estimation methods run on frame pixels through OpenCV; their
outcomes are the oracle inputs `epi` (result of `_epipolar_align`) and
`ph` (result of `_phase_align`, consulted only when `epi` is `None`).
The Python method returns `self.result`; here the whole successor state is
returned and `result` is read off it. -/
def update (cosK sinK : K → K) (st : AlignerState K) (t : K)
    (epi ph : Option (AlignmentResult K)) : AlignerState K :=
  let st1 := { st with last_update := t, update_count := st.update_count + 1 }
  let result := match epi with
    | some r => some r
    | Option.none => ph
  match result with
  | Option.none => st1
  | some r =>
      let st2 := { st1 with quality := r.rms_residual }
      let st3 := applyResult cosK sinK st2 r
      if r.rms_residual < ((3 : K) : WithTop K) ∧ 5 ≤ st3.update_count then
        { st3 with converged := true }
      else st3

/-- the primary-then-fallback choice made inside `update` (lines 216-220). -/
def stepOutcome (p : Option (AlignmentResult K) × Option (AlignmentResult K)) :
    Option (AlignmentResult K) :=
  match p.1 with
  | some r => some r
  | Option.none => p.2

/-- a run of consecutive `update` calls (timestamps fixed at 0: they do not
influence the estimate, smoothing or convergence logic). -/
def runSeq (cosK sinK : K → K) (st : AlignerState K)
    (steps : List (Option (AlignmentResult K) × Option (AlignmentResult K))) :
    AlignerState K :=
  steps.foldl (fun s p => update cosK sinK s 0 p.1 p.2) st

/-- Modelled from the spec: the number of update cycles whose published
estimate had an RMS residual under the fixed 3.0 px threshold ("RMS
residual is under a fixed threshold (e.g. 3.0px) for at least a minimum
number of updates"). -/
def specUnderThreshold
    (steps : List (Option (AlignmentResult K) × Option (AlignmentResult K))) : Nat :=
  (steps.filter fun p =>
    match stepOutcome p with
    | some r => decide (r.rms_residual < ((3 : K) : WithTop K))
    | Option.none => false).length

/-- `StereoAligner.warp_pair`: identity when disabled or no warp is cached;
otherwise warp both frames and mask them when an overlap mask exists.
`warpFn` abstracts the bilinear `cv2.warpAffine` on colour frames and
`maskFn` the `cv2.bitwise_and` with the 3-channel mask. -/
def warpPair {Frame : Type} (warpFn : AffineMat K → Frame → Frame)
    (maskFn : (Int → Int → Bool) → Frame → Frame) (st : AlignerState K)
    (fl fr : Frame) : Frame × Frame :=
  if st.enabled = false ∨ st.warps = Option.none then (fl, fr)
  else
    match st.warps with
    | Option.none => (fl, fr)
    | some (ml, mr) =>
        let dl := warpFn ml fl
        let dr := warpFn mr fr
        match st.overlap_mask with
        | some m => (maskFn m dl, maskFn m dr)
        | Option.none => (dl, dr)

end StateMachine

section Numeric

variable {K : Type} [LinearOrderedField K]

/-- `np.median`: sort, take the middle element (odd length) or the average
of the two middle elements (even length).  `numpy` would produce NaN on an
empty array; the embedding returns 0 there (never reached by the callers
proved about). -/
def npMedian (l : List K) : K :=
  let s := List.insertionSort (fun a b : K => a ≤ b) l
  let n := s.length
  if n = 0 then 0
  else if n % 2 = 1 then s.getD (n / 2) 0
  else (s.getD (n / 2 - 1) 0 + s.getD (n / 2) 0) / 2

/-- `np.mean` (0 on the empty list, standing in for NaN). -/
def npMean (l : List K) : K :=
  l.sum / (l.length : K)

/-- `np.clip(v, lo, hi)`: lower bound applied first, then upper bound. -/
def npClip (v lo hi : K) : K :=
  min (max v lo) hi

/-- `numpy` boolean-mask indexing `arr[mask]`: defined only when the mask
has exactly the length of the array, otherwise an `IndexError` is raised
(modelled as `Option.none`). -/
def npBoolIndex {α : Type} (arr : List α) (mask : List Bool) : Option (List α) :=
  if arr.length = mask.length then
    some (((arr.zip mask).filter fun q => q.2).map fun q => q.1)
  else Option.none

/-- `np.triu_indices(n, k=1)` as a list of index pairs (i, j) with i < j. -/
def triuPairs (n : Nat) : List (Nat × Nat) :=
  (List.range n).flatMap fun i =>
    ((List.range n).filter fun j => i < j).map fun j => (i, j)

/-- `StereoAligner._theil_sen(x, y)`.  The seeded random pair draw of the
sub-sampled branch (`rng.integers(0, n, n_pairs)` twice, zipped) is the
oracle input `draw`; `sqrtK` abstracts `np.sqrt`.  The result is `none`
exactly when the computation raises instead of returning the
`(slope, intercept, rms)` triple: in the sub-sampled branch the code
evaluates `np.median(slopes[valid])` although `slopes` was already
restricted to the valid pairs, so the boolean mask `valid` no longer
matches its length unless every kept pair was valid. -/
def theilSen (sqrtK : K → K) (draw : List (Nat × Nat)) (x y : List K) :
    Option (K × K × K) :=
  let n := x.length
  let minSep : K := 30
  let slopeOpt : Option K :=
    if n ≤ 200 then
      let pairs := triuPairs n
      let validPairs := pairs.filter fun p => minSep < |x.getD p.2 0 - x.getD p.1 0|
      if validPairs.length < 3 then some 0
      else some (npMedian (validPairs.map fun p =>
        (y.getD p.2 0 - y.getD p.1 0) / (x.getD p.2 0 - x.getD p.1 0)))
    else
      let kept := draw.filter fun p => p.1 ≠ p.2
      let valid : List Bool :=
        kept.map fun p => decide (minSep < |x.getD p.2 0 - x.getD p.1 0|)
      if valid.count true < 3 then some 0
      else
        let slopes := ((kept.zip valid).filter fun q => q.2).map fun q =>
          (y.getD q.1.2 0 - y.getD q.1.1 0) / (x.getD q.1.2 0 - x.getD q.1.1 0)
        (npBoolIndex slopes valid).map npMedian
  slopeOpt.map fun slope =>
    let intercepts := List.zipWith (fun xi yi => yi - slope * xi) x y
    let intercept := npMedian intercepts
    let residuals := List.zipWith (fun xi yi => yi - (intercept + slope * xi)) x y
    let rms := sqrtK (npMean (residuals.map fun r => r * r))
    (slope, intercept, rms)

/-- `math.radians`, with `math.pi` abstracted as `piK`. -/
def radians (piK : K) (d : K) : K :=
  d * piK / 180

/-- `StereoAligner._epipolar_regression(pts_l, pts_r, n_total)`: Theil-Sen
fit of the vertical residuals against centered x, clamped to the configured
maxima.  `piK`, `sqrtK` and `draw` abstract `math.pi`, `np.sqrt` and the
seeded pair draw; `t` is the `time.monotonic()` reading. -/
def epipolarRegression (piK : K) (sqrtK : K → K) (draw : List (Nat × Nat))
    (cfg : AlignmentCfg K) (frameW : Nat) (ptsL ptsR : List (K × K))
    (nTotal : Nat) (t : K) : Option (AlignmentResult K) :=
  let n := ptsL.length
  if n < 4 then Option.none
  else
    let cx := (frameW : K) / 2
    let vertDiff := List.zipWith (fun pl pr : K × K => pr.2 - pl.2) ptsL ptsR
    let xCentered := ptsL.map fun p => p.1 - cx
    (theilSen sqrtK draw xCentered vertDiff).map fun tri =>
      let theta := tri.1
      let offset := tri.2.1
      let rms := tri.2.2
      let maxDy := cfg.max_correction_px
      let maxDt := radians piK cfg.max_correction_deg
      let offset2 := npClip offset (-maxDy) maxDy
      let theta2 := npClip theta (-maxDt) maxDt
      { dy := offset2, dtheta := theta2, n_matches := n,
        confidence := (n : K) / ((max nTotal 1 : Nat) : K), timestamp := t,
        method := Method.epipolar, rms_residual := ((rms : K) : WithTop K) }

/-- `StereoAligner._phase_align`: gates applied to the output of
`cv2.phaseCorrelate` (the translation `shift` and its `response`), using
only the vertical shift component rescaled by the detection scale.
`rms_residual` is `float("inf")` on this path. -/
def phaseAlign (cfg : AlignmentCfg K) (scale : K) (shift : K × K)
    (response : K) (t : K) : Option (AlignmentResult K) :=
  let invS := 1 / scale
  let dy := shift.2 * invS
  if cfg.max_correction_px < |dy| then Option.none
  else if response < 3/20 then Option.none
  else
    some { dy := dy, dtheta := 0, n_matches := 0, confidence := min response 1,
           timestamp := t, method := Method.phase, rms_residual := ⊤ }

end Numeric

section Camera

/-- observable behaviour of one capture device for `CameraCapture._open_opencv`:
whether `VideoCapture.isOpened()` succeeds, the (width, height) the driver
reports after the MJPG-fourcc configuration, and the (width, height) it
reports after the fallback reopen without the fourcc override (the reopen's
`isOpened` is not rechecked by the code). -/
structure DeviceModel where
  opens : Bool
  mjpgW : Nat
  mjpgH : Nat
  plainW : Nat
  plainH : Nat
deriving DecidableEq, Repr

/-- the distinct named conditions `CameraCapture.start` can raise. -/
inductive CamError where
  | cannotOpen
deriving DecidableEq, Repr

/-- `CameraCapture._open_opencv`: raises `RuntimeError` (here
`CamError.cannotOpen`) iff the device does not open; when the MJPG
configuration reports a zero dimension it releases, reopens without the
fourcc override and proceeds with whatever dimensions that reports —
no error is raised for zero dimensions.  Returns the final
`(actual_w, actual_h)`. -/
def openOpencv (d : DeviceModel) : Except CamError (Nat × Nat) :=
  if d.opens = false then Except.error CamError.cannotOpen
  else if d.mjpgW = 0 ∨ d.mjpgH = 0 then Except.ok (d.plainW, d.plainH)
  else Except.ok (d.mjpgW, d.mjpgH)

/-- `CameraCapture.start` for the OpenCV backend: propagates the open
error; the grab thread and the bounded warm-up wait have no failure path
and are not modelled. -/
def camStart (d : DeviceModel) : Except CamError Unit :=
  (openOpencv d).map fun _ => ()

end Camera

section SpecSide

/-- Modelled from the spec: "building a 2×3 affine transform per eye
(rotate about frame center, then translate vertically)" — rotate the point
by `theta` about `(cx, cy)`, then add `ty` to the vertical coordinate. -/
noncomputable def specRotateThenTranslate (cx cy theta ty : ℝ) (p : ℝ × ℝ) : ℝ × ℝ :=
  (cx + Real.cos theta * (p.1 - cx) - Real.sin theta * (p.2 - cy),
   cy + Real.sin theta * (p.1 - cx) + Real.cos theta * (p.2 - cy) + ty)

/-- whether the cached overlap mask of a state has at least one valid
in-frame pixel. -/
def maskNonempty {K : Type} [LinearOrderedField K] [FloorRing K]
    (st : AlignerState K) : Prop :=
  ∃ m x y, st.overlap_mask = some m ∧ inFrame st.frame_w st.frame_h x y ∧
    m x y = true

end SpecSide

section ConcreteInputs

/-- an epipolar-method estimate with a given RMS residual, for driving
concrete update sequences. -/
def resWithRms (rms : ℚ) : AlignmentResult ℚ :=
  { dy := 0, dtheta := 0, n_matches := 0, confidence := 0, timestamp := 0,
    method := Method.epipolar, rms_residual := (rms : WithTop ℚ) }

/-- four updates with RMS 10 px followed by one with RMS 1 px. -/
def seqHighThenLow : List (Option (AlignmentResult ℚ) × Option (AlignmentResult ℚ)) :=
  [(some (resWithRms 10), Option.none), (some (resWithRms 10), Option.none),
   (some (resWithRms 10), Option.none), (some (resWithRms 10), Option.none),
   (some (resWithRms 1), Option.none)]

/-- a single update with RMS 1 px. -/
def seqLowOnce : List (Option (AlignmentResult ℚ) × Option (AlignmentResult ℚ)) :=
  [(some (resWithRms 1), Option.none)]

/-- a freshly constructed rational-valued aligner on default config. -/
def stDefault : AlignerState ℚ :=
  initState defaultCfg 1920 1080

/-- the aligner right after `enabled = False`. -/
def stDisabled : AlignerState ℚ :=
  setEnabled stDefault false

/-- a real-valued aligner on a 4×4 frame whose smoothed offset sits exactly
at the default 80 px maximum. -/
noncomputable def stTinyFrame : AlignerState ℝ :=
  { initState defaultCfg 4 4 with smooth_dy := 80 }

/-- a freshly constructed real-valued aligner on the nominal 1920×1080
frame. -/
noncomputable def stFullHD : AlignerState ℝ :=
  initState defaultCfg 1920 1080

/-- the abscissae 0, 1, …, 200 (201 points, putting `_theil_sen` in its
sub-sampled branch). -/
def xs201 : List ℚ :=
  (List.range 201).map fun k : Nat => (k : ℚ)

/-- 201 zero ordinates. -/
def ys201 : List ℚ :=
  List.replicate 201 (0 : ℚ)

/-- a pair draw containing three pairs with x-separation above the minimum
gap and two below it. -/
def drawMixed : List (Nat × Nat) :=
  [(0, 1), (0, 100), (1, 150), (2, 200), (0, 2)]

/-- the estimate `_phase_align` produces for a 5 px vertical shift with
response 0.5 at scale 1. -/
def c9PhaseRes : AlignmentResult ℚ :=
  { dy := 5 * (1 / 1), dtheta := 0, n_matches := 0, confidence := min (1/2) 1,
    timestamp := 0, method := Method.phase, rms_residual := ⊤ }

end ConcreteInputs

section Helpers

variable {K : Type} [LinearOrderedField K] [FloorRing K]

lemma buildWarpMatrices_last_update (cosK sinK : K → K) (st : AlignerState K) :
    (buildWarpMatrices cosK sinK st).last_update = st.last_update := rfl

lemma applyResult_last_update (cosK sinK : K → K) (st : AlignerState K)
    (r : AlignmentResult K) :
    (applyResult cosK sinK st r).last_update = st.last_update := rfl

lemma applyResult_update_count (cosK sinK : K → K) (st : AlignerState K)
    (r : AlignmentResult K) :
    (applyResult cosK sinK st r).update_count = st.update_count := rfl

lemma applyResult_converged (cosK sinK : K → K) (st : AlignerState K)
    (r : AlignmentResult K) :
    (applyResult cosK sinK st r).converged = st.converged := rfl

lemma update_last_update (cosK sinK : K → K) (st : AlignerState K) (t : K)
    (epi ph : Option (AlignmentResult K)) :
    (update cosK sinK st t epi ph).last_update = t := by
  cases epi <;> cases ph <;> simp only [update] <;>
    first
    | rfl
    | (split <;> rfl)

lemma update_update_count (cosK sinK : K → K) (st : AlignerState K) (t : K)
    (epi ph : Option (AlignmentResult K)) :
    (update cosK sinK st t epi ph).update_count = st.update_count + 1 := by
  cases epi <;> cases ph <;> simp only [update] <;>
    first
    | rfl
    | (split <;> rfl)

omit [FloorRing K] in
lemma intervalOf_forceUpdate (st : AlignerState K) :
    intervalOf (forceUpdate st) = intervalOf st := rfl

lemma update_converged_iff (cosK sinK : K → K) (st : AlignerState K) (t : K)
    (epi ph : Option (AlignmentResult K)) :
    ((update cosK sinK st t epi ph).converged = true ↔
      (st.converged = true ∨ ∃ r, stepOutcome (epi, ph) = some r ∧
        r.rms_residual < ((3 : K) : WithTop K) ∧ 5 ≤ st.update_count + 1)) := by
  have main : ∀ r : AlignmentResult K,
      ((update cosK sinK st t (some r) ph).converged = true ↔
        (st.converged = true ∨ ∃ r2,
          (some r : Option (AlignmentResult K)) = some r2 ∧
          r2.rms_residual < ((3 : K) : WithTop K) ∧ 5 ≤ st.update_count + 1)) ∧
      ((update cosK sinK st t Option.none (some r)).converged = true ↔
        (st.converged = true ∨ ∃ r2,
          (some r : Option (AlignmentResult K)) = some r2 ∧
          r2.rms_residual < ((3 : K) : WithTop K) ∧ 5 ≤ st.update_count + 1)) := by
    intro r
    constructor <;>
      (simp only [update]
       split
       next hcond =>
         constructor
         · intro _
           exact Or.inr ⟨r, rfl, hcond.1, hcond.2⟩
         · intro _
           rfl
       next hcond =>
         constructor
         · intro hc
           exact Or.inl hc
         · rintro (hc | ⟨r2, hr2, h3, h5⟩)
           · exact hc
           · cases Option.some.inj hr2
             exact absurd ⟨h3, h5⟩ hcond)
  cases epi with
  | some r => exact (main r).1
  | none =>
    cases ph with
    | some r => exact (main r).2
    | none => simp [update, stepOutcome]

lemma runSeq_converged_iff (cosK sinK : K → K) (st : AlignerState K)
    (steps : List (Option (AlignmentResult K) × Option (AlignmentResult K))) :
    ((runSeq cosK sinK st steps).converged = true ↔
      (st.converged = true ∨ ∃ i, ∃ hi : i < steps.length, ∃ r,
        stepOutcome (steps.get ⟨i, hi⟩) = some r ∧
        r.rms_residual < ((3 : K) : WithTop K) ∧
        5 ≤ st.update_count + i + 1)) := by
  induction steps generalizing st with
  | nil => simp [runSeq]
  | cons p ps ih =>
    have hrs : runSeq cosK sinK st (p :: ps) =
        runSeq cosK sinK (update cosK sinK st 0 p.1 p.2) ps := rfl
    rw [hrs, ih, update_converged_iff cosK sinK st 0 p.1 p.2]
    have hcnt : (update cosK sinK st 0 p.1 p.2).update_count =
        st.update_count + 1 := update_update_count cosK sinK st 0 p.1 p.2
    rw [hcnt]
    constructor
    · rintro ((hc | ⟨r, hr, h3, h5⟩) | ⟨j, hj, r, hr, h3, h5⟩)
      · exact Or.inl hc
      · exact Or.inr ⟨0, by simp, r, hr, h3, by omega⟩
      · exact Or.inr ⟨j + 1, by simpa using Nat.succ_lt_succ hj, r,
          by simpa using hr, h3, by omega⟩
    · rintro (hc | ⟨i, hi, r, hr, h3, h5⟩)
      · exact Or.inl (Or.inl hc)
      · cases i with
        | zero => exact Or.inl (Or.inr ⟨r, hr, h3, by omega⟩)
        | succ j =>
          exact Or.inr ⟨j, by simp only [List.length_cons] at hi; omega, r,
            by simpa using hr, h3, by omega⟩

omit [LinearOrderedField K] [FloorRing K] in
lemma zip_filter_length {α : Type} :
    ∀ (l : List α) (m : List Bool), l.length = m.length →
      ((l.zip m).filter fun q => q.2).length = m.count true := by
  intro l
  induction l with
  | nil =>
    intro m hm
    cases m with
    | nil => simp
    | cons b m2 => simp at hm
  | cons a l2 ih =>
    intro m hm
    cases m with
    | nil => simp at hm
    | cons b m2 =>
      have hm2 : l2.length = m2.length := by simpa using hm
      cases b <;>
        simp [List.filter_cons, List.count_cons, ih m2 hm2]

omit [FloorRing K] in
lemma invertAffine_of_det_one (M : AffineMat K)
    (h : M.m00 * M.m11 - M.m01 * M.m10 = 1) :
    invertAffine M =
      { m00 := M.m11, m01 := -M.m01,
        m02 := -(M.m11 * M.m02 + -M.m01 * M.m12),
        m10 := -M.m10, m11 := M.m00,
        m12 := -(-M.m10 * M.m02 + M.m00 * M.m12) } := by
  simp only [invertAffine, h]
  norm_num

omit [FloorRing K] in
lemma rotationMatrix_det_one (cosK sinK : K → K) (cx cy angle ty : K)
    (hcs : cosK angle * cosK angle + sinK angle * sinK angle = 1) :
    (rotationMatrix cosK sinK cx cy angle ty).m00 *
      (rotationMatrix cosK sinK cx cy angle ty).m11 -
      (rotationMatrix cosK sinK cx cy angle ty).m01 *
      (rotationMatrix cosK sinK cx cy angle ty).m10 = 1 := by
  simp only [rotationMatrix]
  linear_combination hcs

omit [FloorRing K] in
lemma srcPoint_rotationMatrix (cosK sinK : K → K) (cx cy angle ty : K)
    (hcs : cosK angle * cosK angle + sinK angle * sinK angle = 1)
    (x y : Int) :
    srcPoint (rotationMatrix cosK sinK cx cy angle ty) x y =
      (cx + cosK angle * ((x : K) - cx) + sinK angle * ((y : K) - cy)
         - sinK angle * ty,
       cy - sinK angle * ((x : K) - cx) + cosK angle * ((y : K) - cy)
         - cosK angle * ty) := by
  simp only [srcPoint]
  rw [invertAffine_of_det_one _ (rotationMatrix_det_one cosK sinK cx cy angle ty hcs)]
  simp only [rotationMatrix]
  rw [Prod.mk.injEq]
  constructor
  · linear_combination cx * hcs
  · linear_combination cy * hcs

lemma warpMaskAt_rotation (w h : Nat) (cosK sinK : K → K) (cx cy angle ty : K)
    (hcs : cosK angle * cosK angle + sinK angle * sinK angle = 1)
    (x y : Int) :
    warpMaskAt w h (rotationMatrix cosK sinK cx cy angle ty) x y =
      decide (inFrame w h
        (round (cx + cosK angle * ((x : K) - cx) + sinK angle * ((y : K) - cy)
          - sinK angle * ty))
        (round (cy - sinK angle * ((x : K) - cx) + cosK angle * ((y : K) - cy)
          - cosK angle * ty))) := by
  simp only [warpMaskAt, srcPoint_rotationMatrix cosK sinK cx cy angle ty hcs x y]

lemma warpMaskAt_id (cosK sinK : K → K) (hc : cosK 0 = 1) (hs : sinK 0 = 0)
    (cx cy : K) (w h : Nat) (x y : Int) (hin : inFrame w h x y) :
    warpMaskAt w h (rotationMatrix cosK sinK cx cy 0 0) x y = true := by
  have hcs : cosK 0 * cosK 0 + sinK 0 * sinK 0 = 1 := by
    rw [hc, hs]
    ring
  rw [warpMaskAt_rotation w h cosK sinK cx cy 0 0 hcs x y, hc, hs]
  have e1 : cx + 1 * ((x : K) - cx) + 0 * ((y : K) - cy) - 0 * 0
      = (((x : Int) : K)) := by ring
  have e2 : cy - 0 * ((x : K) - cx) + 1 * ((y : K) - cy) - 1 * 0
      = (((y : Int) : K)) := by ring
  rw [e1, e2, round_intCast, round_intCast]
  exact decide_eq_true hin

/-- the source point of any destination pixel within 2 px of the center of
a 1920×1080 frame stays inside the frame under a centered rotation warp
with a vertical translation of at most 40 px, whatever the angle. -/
lemma warpMaskAt_fullHD (angle ty : ℝ) (x y : Int) (hty : |ty| ≤ 40)
    (hx : |(x : ℝ) - 960| ≤ 2) (hy : |(y : ℝ) - 540| ≤ 2) :
    warpMaskAt 1920 1080
      (rotationMatrix Real.cos Real.sin 960 540 angle ty) x y = true := by
  have hpyth := Real.sin_sq_add_cos_sq angle
  have hcs : Real.cos angle * Real.cos angle +
      Real.sin angle * Real.sin angle = 1 := by nlinarith [hpyth]
  rw [warpMaskAt_rotation 1920 1080 Real.cos Real.sin 960 540 angle ty hcs x y]
  have hc1 : |Real.cos angle| ≤ 1 := Real.abs_cos_le_one angle
  have hs1 : |Real.sin angle| ≤ 1 := Real.abs_sin_le_one angle
  have hb1 : |Real.cos angle * ((x : ℝ) - 960)| ≤ 2 := by
    rw [abs_mul]
    calc |Real.cos angle| * |(x : ℝ) - 960| ≤ 1 * 2 :=
          mul_le_mul hc1 hx (abs_nonneg _) zero_le_one
      _ = 2 := by norm_num
  have hb2 : |Real.sin angle * ((y : ℝ) - 540)| ≤ 2 := by
    rw [abs_mul]
    calc |Real.sin angle| * |(y : ℝ) - 540| ≤ 1 * 2 :=
          mul_le_mul hs1 hy (abs_nonneg _) zero_le_one
      _ = 2 := by norm_num
  have hb3 : |Real.sin angle * ty| ≤ 40 := by
    rw [abs_mul]
    calc |Real.sin angle| * |ty| ≤ 1 * 40 :=
          mul_le_mul hs1 hty (abs_nonneg _) zero_le_one
      _ = 40 := by norm_num
  have hb4 : |Real.sin angle * ((x : ℝ) - 960)| ≤ 2 := by
    rw [abs_mul]
    calc |Real.sin angle| * |(x : ℝ) - 960| ≤ 1 * 2 :=
          mul_le_mul hs1 hx (abs_nonneg _) zero_le_one
      _ = 2 := by norm_num
  have hb5 : |Real.cos angle * ((y : ℝ) - 540)| ≤ 2 := by
    rw [abs_mul]
    calc |Real.cos angle| * |(y : ℝ) - 540| ≤ 1 * 2 :=
          mul_le_mul hc1 hy (abs_nonneg _) zero_le_one
      _ = 2 := by norm_num
  have hb6 : |Real.cos angle * ty| ≤ 40 := by
    rw [abs_mul]
    calc |Real.cos angle| * |ty| ≤ 1 * 40 :=
          mul_le_mul hc1 hty (abs_nonneg _) zero_le_one
      _ = 40 := by norm_num
  set sx : ℝ := 960 + Real.cos angle * ((x : ℝ) - 960) +
    Real.sin angle * ((y : ℝ) - 540) - Real.sin angle * ty with hsx
  set sy : ℝ := 540 - Real.sin angle * ((x : ℝ) - 960) +
    Real.cos angle * ((y : ℝ) - 540) - Real.cos angle * ty with hsy
  have hsxb : |sx - 960| ≤ 44 := by
    have e : sx - 960 = Real.cos angle * ((x : ℝ) - 960) +
        Real.sin angle * ((y : ℝ) - 540) + -(Real.sin angle * ty) := by
      rw [hsx]
      ring
    rw [e]
    calc |Real.cos angle * ((x : ℝ) - 960) + Real.sin angle * ((y : ℝ) - 540)
          + -(Real.sin angle * ty)|
        ≤ |Real.cos angle * ((x : ℝ) - 960) + Real.sin angle * ((y : ℝ) - 540)|
          + |-(Real.sin angle * ty)| := abs_add _ _
      _ ≤ |Real.cos angle * ((x : ℝ) - 960)| +
          |Real.sin angle * ((y : ℝ) - 540)| + |-(Real.sin angle * ty)| := by
            have := abs_add (Real.cos angle * ((x : ℝ) - 960))
              (Real.sin angle * ((y : ℝ) - 540))
            linarith
      _ ≤ 44 := by
            rw [abs_neg]
            linarith
  have hsyb : |sy - 540| ≤ 44 := by
    have e : sy - 540 = -(Real.sin angle * ((x : ℝ) - 960)) +
        Real.cos angle * ((y : ℝ) - 540) + -(Real.cos angle * ty) := by
      rw [hsy]
      ring
    rw [e]
    calc |-(Real.sin angle * ((x : ℝ) - 960)) + Real.cos angle * ((y : ℝ) - 540)
          + -(Real.cos angle * ty)|
        ≤ |-(Real.sin angle * ((x : ℝ) - 960)) +
            Real.cos angle * ((y : ℝ) - 540)| + |-(Real.cos angle * ty)| :=
          abs_add _ _
      _ ≤ |-(Real.sin angle * ((x : ℝ) - 960))| +
          |Real.cos angle * ((y : ℝ) - 540)| + |-(Real.cos angle * ty)| := by
            have := abs_add (-(Real.sin angle * ((x : ℝ) - 960)))
              (Real.cos angle * ((y : ℝ) - 540))
            linarith
      _ ≤ 44 := by
            rw [abs_neg, abs_neg]
            linarith
  have hrx : (0 : ℤ) ≤ round sx ∧ round sx < 1920 := by
    have hd : |sx - (round sx : ℝ)| ≤ 1/2 := abs_sub_round sx
    have hb := abs_le.mp hsxb
    have hdb := abs_le.mp hd
    constructor
    · have : (0 : ℝ) ≤ (round sx : ℝ) := by linarith
      exact_mod_cast this
    · have : ((round sx : ℝ)) < 1920 := by linarith
      exact_mod_cast this
  have hry : (0 : ℤ) ≤ round sy ∧ round sy < 1080 := by
    have hd : |sy - (round sy : ℝ)| ≤ 1/2 := abs_sub_round sy
    have hb := abs_le.mp hsyb
    have hdb := abs_le.mp hd
    constructor
    · have : (0 : ℝ) ≤ (round sy : ℝ) := by linarith
      exact_mod_cast this
    · have : ((round sy : ℝ)) < 1080 := by linarith
      exact_mod_cast this
  refine decide_eq_true ?_
  refine ⟨hrx.1, ?_, hry.1, ?_⟩
  · exact_mod_cast hrx.2
  · exact_mod_cast hry.2

lemma eroded_full (cosK sinK : K → K) (hc : cosK 0 = 1) (hs : sinK 0 = 0)
    (cx cy : K) (w h : Nat) (x y : Int) :
    erodedMaskFn w h (rotationMatrix cosK sinK cx cy 0 0)
      (rotationMatrix cosK sinK cx cy 0 0) x y = true := by
  simp only [erodedMaskFn, List.all_eq_true]
  intro i hi j hj
  by_cases hpf : inFrame w h (x + (i : Int) - 2) (y + (j : Int) - 2)
  · have hwm := warpMaskAt_id cosK sinK hc hs cx cy w h _ _ hpf
    simp [overlapMaskAt, hwm]
  · simp [hpf]

lemma eroded_center_fullHD (angle ty : ℝ) (hty : |ty| ≤ 40) :
    erodedMaskFn 1920 1080
      (rotationMatrix Real.cos Real.sin 960 540 angle ty)
      (rotationMatrix Real.cos Real.sin 960 540 (-angle) (-ty))
      960 540 = true := by
  simp only [erodedMaskFn, List.all_eq_true]
  intro i hi j hj
  rw [List.mem_range] at hi hj
  have hxb : |(((960 : Int) + (i : Int) - 2 : Int) : ℝ) - 960| ≤ 2 := by
    have h4 : (i : ℝ) ≤ 4 := by exact_mod_cast Nat.le_of_lt_succ hi
    have h0 : (0 : ℝ) ≤ (i : ℝ) := by positivity
    push_cast
    rw [abs_le]
    constructor <;> linarith
  have hyb : |(((540 : Int) + (j : Int) - 2 : Int) : ℝ) - 540| ≤ 2 := by
    have h4 : (j : ℝ) ≤ 4 := by exact_mod_cast Nat.le_of_lt_succ hj
    have h0 : (0 : ℝ) ≤ (j : ℝ) := by positivity
    push_cast
    rw [abs_le]
    constructor <;> linarith
  have hov : overlapMaskAt 1920 1080
      (rotationMatrix Real.cos Real.sin 960 540 angle ty)
      (rotationMatrix Real.cos Real.sin 960 540 (-angle) (-ty))
      ((960 : Int) + (i : Int) - 2) ((540 : Int) + (j : Int) - 2) = true := by
    rw [overlapMaskAt,
      warpMaskAt_fullHD angle ty _ _ hty hxb hyb,
      warpMaskAt_fullHD (-angle) (-ty) _ _ (by rw [abs_neg]; exact hty) hxb hyb]
    rfl
  rw [hov, Bool.or_true]

omit [FloorRing K] in
lemma abs_npClip_le (v m : K) (hm : 0 ≤ m) : |npClip v (-m) m| ≤ m := by
  rw [npClip, abs_le]
  refine ⟨le_min ?_ (by linarith), min_le_right _ _⟩
  exact le_max_right v (-m)

omit [FloorRing K] in
lemma smooth_bound (a x z M : K) (ha0 : 0 ≤ a) (ha1 : a ≤ 1)
    (hx : |x| ≤ M) (hz : |z| ≤ M) : |a * x + (1 - a) * z| ≤ M := by
  have hx2 := abs_le.mp hx
  have hz2 := abs_le.mp hz
  rw [abs_le]
  constructor <;> nlinarith [hx2.1, hx2.2, hz2.1, hz2.2]

lemma xs201_length : xs201.length = 201 := by
  unfold xs201
  rw [List.length_map, List.length_range]

lemma xs201_getD (i : Nat) (h : i < 201) : xs201.getD i 0 = (i : ℚ) := by
  unfold xs201
  have hl : i < ((List.range 201).map fun k : Nat => (k : ℚ)).length := by
    rw [List.length_map, List.length_range]
    exact h
  rw [List.getD_eq_getElem _ _ hl, List.getElem_map, List.getElem_range]

lemma drawMixed_flags :
    ((drawMixed.filter fun p => p.1 ≠ p.2).map fun p =>
      decide ((30 : ℚ) < |xs201.getD p.2 0 - xs201.getD p.1 0|)) =
    [false, true, true, true, false] := by
  have hp01 : decide ((30 : ℚ) < |xs201.getD 1 0 - xs201.getD 0 0|) = false := by
    rw [xs201_getD 1 (by norm_num), xs201_getD 0 (by norm_num)]
    exact decide_eq_false (by push_cast; norm_num)
  have hp0100 : decide ((30 : ℚ) < |xs201.getD 100 0 - xs201.getD 0 0|) = true := by
    rw [xs201_getD 100 (by norm_num), xs201_getD 0 (by norm_num)]
    exact decide_eq_true (by push_cast; norm_num)
  have hp1150 : decide ((30 : ℚ) < |xs201.getD 150 0 - xs201.getD 1 0|) = true := by
    rw [xs201_getD 150 (by norm_num), xs201_getD 1 (by norm_num)]
    exact decide_eq_true (by push_cast; norm_num)
  have hp2200 : decide ((30 : ℚ) < |xs201.getD 200 0 - xs201.getD 2 0|) = true := by
    rw [xs201_getD 200 (by norm_num), xs201_getD 2 (by norm_num)]
    exact decide_eq_true (by push_cast; norm_num)
  have hp02 : decide ((30 : ℚ) < |xs201.getD 2 0 - xs201.getD 0 0|) = false := by
    rw [xs201_getD 2 (by norm_num), xs201_getD 0 (by norm_num)]
    exact decide_eq_false (by push_cast; norm_num)
  have hfilter : (drawMixed.filter fun p => p.1 ≠ p.2) = drawMixed := by decide
  rw [hfilter]
  simp only [drawMixed, List.map_cons, List.map_nil]
  rw [hp01, hp0100, hp1150, hp2200, hp02]

end Helpers

section ClaimTheorems

/-- C1: an `update` on which both the epipolar method and the
phase-correlation fallback fail their gates leaves the published result,
the smoothed offset and rotation, both warp matrices, the overlap mask,
the converged flag and the quality value exactly as they were. -/
theorem c1_both_fail_state_unchanged {K : Type} [LinearOrderedField K]
    [FloorRing K] (cosK sinK : K → K) (st : AlignerState K) (t : K) :
    (update cosK sinK st t Option.none Option.none).result = st.result ∧
    (update cosK sinK st t Option.none Option.none).smooth_dy = st.smooth_dy ∧
    (update cosK sinK st t Option.none Option.none).smooth_dtheta = st.smooth_dtheta ∧
    (update cosK sinK st t Option.none Option.none).warps = st.warps ∧
    (update cosK sinK st t Option.none Option.none).overlap_mask = st.overlap_mask ∧
    (update cosK sinK st t Option.none Option.none).converged = st.converged ∧
    (update cosK sinK st t Option.none Option.none).quality = st.quality :=
  ⟨rfl, rfl, rfl, rfl, rfl, rfl, rfl⟩

/-- C10: every `update` call, also a fully failed one, records the current
time as the last-update timestamp and increments the update counter, so
right after it `needs_update` is false until the adaptive interval has
elapsed again. -/
theorem c10_update_timing {K : Type} [LinearOrderedField K] [FloorRing K]
    (cosK sinK : K → K) (st : AlignerState K) (t : K)
    (epi ph : Option (AlignmentResult K)) :
    (update cosK sinK st t epi ph).last_update = t ∧
    (update cosK sinK st t epi ph).update_count = st.update_count + 1 ∧
    ∀ t2 : K, t2 - t < intervalOf (update cosK sinK st t epi ph) →
      needsUpdate t2 (update cosK sinK st t epi ph) = false := by
  refine ⟨update_last_update cosK sinK st t epi ph,
    update_update_count cosK sinK st t epi ph, ?_⟩
  intro t2 h
  have hlt : ¬ (intervalOf (update cosK sinK st t epi ph) ≤ t2 - t) := not_le.mpr h
  simp [needsUpdate, update_last_update cosK sinK st t epi ph, hlt]

/-- the adaptive interval right after one update on the fresh default
aligner is the rapid 0.5 s interval. -/
theorem stDefault_interval_after_update :
    intervalOf (update (fun _ => (0 : ℚ)) (fun _ => 0) stDefault 100
      Option.none Option.none) = 1/2 := rfl

/-- C10 witness: a concrete failed update at time 100, queried again at
time 100, is not yet due. -/
theorem c10_witness :
    ((100 : ℚ) - 100 <
      intervalOf (update (fun _ => (0 : ℚ)) (fun _ => 0) stDefault 100
        Option.none Option.none)) ∧
    needsUpdate (100 : ℚ)
      (update (fun _ => (0 : ℚ)) (fun _ => 0) stDefault 100
        Option.none Option.none) = false := by
  have h : (100 : ℚ) - 100 <
      intervalOf (update (fun _ => (0 : ℚ)) (fun _ => 0) stDefault 100
        Option.none Option.none) := by
    rw [stDefault_interval_after_update]
    norm_num
  exact ⟨h,
    (c10_update_timing (fun _ => (0 : ℚ)) (fun _ => 0) stDefault 100
      Option.none Option.none).2.2 100 h⟩

/-- C4 counterexample: `needs_update` is NOT true immediately after
`force_update` regardless of elapsed time — it is false at monotonic time
1/4 s on a fresh enabled aligner (the 0.5 s rapid interval has not
elapsed since the cleared timestamp 0), and false at time 1000 s on a
disabled aligner. -/
theorem c4_counterexample :
    needsUpdate (1/4 : ℚ) (forceUpdate stDefault) = false ∧
    needsUpdate (1000 : ℚ) (forceUpdate stDisabled) = false := by
  constructor
  · have he : (forceUpdate stDefault).enabled = true := rfl
    have hi : intervalOf (forceUpdate stDefault) = 1/2 := rfl
    have hl : (forceUpdate stDefault).last_update = 0 := rfl
    simp only [needsUpdate, he, hi, hl, Bool.true_and]
    rw [decide_eq_false]
    norm_num
  · rfl

/-- C4 (amended): `force_update` clears the last-update timestamp to 0, so
afterwards `needs_update` is true whenever the aligner is enabled and the
monotonic time is at least the adaptive interval (and false while
disabled); in general `needs_update` is true exactly when the aligner is
enabled and the adaptive interval — 0.5 s while not converged and fewer
than 20 updates have run, else the configured steady-state interval — has
elapsed since the last update. -/
theorem c4_needs_update_amended {K : Type} [LinearOrderedField K] [FloorRing K] :
    (∀ (st : AlignerState K) (t : K), st.enabled = true → intervalOf st ≤ t →
      needsUpdate t (forceUpdate st) = true) ∧
    (∀ (st : AlignerState K) (t : K),
      needsUpdate t st = true ↔ (st.enabled = true ∧
        (if st.converged = false ∧ st.update_count < 20 then (1/2 : K)
         else st.cfg.interval_sec) ≤ t - st.last_update)) := by
  constructor
  · intro st t he hi
    have h0 : intervalOf (forceUpdate st) ≤ t - (forceUpdate st).last_update := by
      rw [intervalOf_forceUpdate]
      simpa [forceUpdate] using hi
    have he2 : (forceUpdate st).enabled = true := he
    simp [needsUpdate, he2, h0]
  · intro st t
    simp [needsUpdate, intervalOf, Bool.and_eq_true, decide_eq_true_eq]

/-- C4 witness: on a fresh enabled aligner at monotonic time 1000,
`needs_update` is true right after `force_update`. -/
theorem c4_witness :
    stDefault.enabled = true ∧ intervalOf stDefault ≤ (1000 : ℚ) ∧
    needsUpdate (1000 : ℚ) (forceUpdate stDefault) = true := by
  have hi : intervalOf stDefault ≤ (1000 : ℚ) := by
    have : intervalOf stDefault = 1/2 := rfl
    rw [this]
    norm_num
  exact ⟨rfl, hi, (c4_needs_update_amended (K := ℚ)).1 stDefault 1000 rfl hi⟩

/-- C3 counterexample: a device that opens but reports zero width and zero
height both with and without the MJPG override makes `start` return
normally — no error condition is raised for zero reported dimensions. -/
theorem c3_counterexample :
    openOpencv ⟨true, 0, 0, 0, 0⟩ = Except.ok (0, 0) ∧
    camStart ⟨true, 0, 0, 0, 0⟩ = Except.ok () := by
  constructor <;> rfl

/-- C3 (amended): `start` raises the distinct named open-failure condition
exactly when the device cannot be opened; when the device opens but
reports a zero dimension after the MJPG configuration, it is reopened once
without the fourcc override and `start` then returns normally with
whatever dimensions the retry reports — zero dimensions never raise. -/
theorem c3_open_amended :
    (∀ d : DeviceModel, d.opens = false →
      camStart d = Except.error CamError.cannotOpen) ∧
    (∀ d : DeviceModel, d.opens = true → camStart d = Except.ok ()) ∧
    (∀ d : DeviceModel, d.opens = true → (d.mjpgW = 0 ∨ d.mjpgH = 0) →
      openOpencv d = Except.ok (d.plainW, d.plainH)) := by
  refine ⟨?_, ?_, ?_⟩
  · intro d h
    show (openOpencv d).map (fun _ => ()) = Except.error CamError.cannotOpen
    have ho : openOpencv d = Except.error CamError.cannotOpen := by
      simp [openOpencv, h]
    rw [ho]
    rfl
  · intro d h
    show (openOpencv d).map (fun _ => ()) = Except.ok ()
    have ho : openOpencv d =
        if d.mjpgW = 0 ∨ d.mjpgH = 0 then Except.ok (d.plainW, d.plainH)
        else Except.ok (d.mjpgW, d.mjpgH) := by
      simp [openOpencv, h]
    rw [ho]
    split <;> rfl
  · intro d h hz
    simp [openOpencv, h, hz]

/-- C3 witness: a device that does not open makes `start` raise the named
open-failure condition. -/
theorem c3_witness :
    camStart ⟨false, 1920, 1080, 1920, 1080⟩ = Except.error CamError.cannotOpen :=
  c3_open_amended.1 ⟨false, 1920, 1080, 1920, 1080⟩ (by decide)

/-- C6: disabling the aligner resets the published estimate, the smoothed
correction, the warps and the overlap mask to neutral and makes
`has_correction` false; `warp_pair` returns its inputs unchanged whenever
the aligner is disabled or no warp has been cached yet, and a freshly
constructed aligner has no cached warp. -/
theorem c6_disable_resets_and_warp_identity {K : Type} [LinearOrderedField K]
    [FloorRing K] :
    (∀ st : AlignerState K,
      (setEnabled st false).result = AlignmentResult.init ∧
      (setEnabled st false).smooth_dy = 0 ∧
      (setEnabled st false).smooth_dtheta = 0 ∧
      (setEnabled st false).warps = Option.none ∧
      (setEnabled st false).overlap_mask = Option.none ∧
      hasCorrection (setEnabled st false) = false ∧
      (setEnabled st false).converged = false) ∧
    (∀ (Frame : Type) (warpFn : AffineMat K → Frame → Frame)
        (maskFn : (Int → Int → Bool) → Frame → Frame) (st : AlignerState K)
        (fl fr : Frame), (st.enabled = false ∨ st.warps = Option.none) →
      warpPair warpFn maskFn st fl fr = (fl, fr)) ∧
    (∀ (cfg : AlignmentCfg K) (w h : Nat),
      (initState cfg w h).warps = Option.none) := by
  refine ⟨?_, ?_, ?_⟩
  · intro st
    exact ⟨rfl, rfl, rfl, rfl, rfl, rfl, rfl⟩
  · intro Frame warpFn maskFn st fl fr h
    simp only [warpPair]
    rw [if_pos h]
  · intro cfg w h
    rfl

/-- C6 witness: on the concrete just-disabled aligner, `warp_pair` is the
identity on a concrete frame pair. -/
theorem c6_witness :
    warpPair (fun _ f => f) (fun _ f => f) stDisabled (0 : Nat) 1 = (0, 1) :=
  (c6_disable_resets_and_warp_identity (K := ℚ)).2.1 Nat (fun _ f => f)
    (fun _ f => f) stDisabled 0 1 (Or.inl rfl)

/-- C5 counterexample: two freshly-enabled runs with the same number of
under-threshold cycles (exactly one each) end with different `converged`
flags — four RMS-10 updates followed by one RMS-1 update converges, while
a single RMS-1 update does not — so convergence is not "RMS under the
threshold for at least a minimum number of cycles": the code only requires
the current update's RMS to be under 3.0 px and the total call count
(whatever the earlier residuals were) to have reached 5. -/
theorem c5_counterexample :
    (runSeq (fun _ => (0 : ℚ)) (fun _ => 0) stDefault seqHighThenLow).converged
      = true ∧
    specUnderThreshold seqHighThenLow = 1 ∧
    (runSeq (fun _ => (0 : ℚ)) (fun _ => 0) stDefault seqLowOnce).converged
      = false ∧
    specUnderThreshold seqLowOnce = 1 := by
  exact ⟨by decide, by decide, by decide, by decide⟩

/-- C5 (amended): starting from a freshly constructed (or equivalently
just re-enabled or reset) aligner, `converged` is true after a run of
updates exactly when some update had its RMS residual under the fixed
3.0 px threshold while the total number of update calls so far was at
least 5; in particular convergence is never declared before 5 updates
have run. -/
theorem c5_convergence_amended {K : Type} [LinearOrderedField K] [FloorRing K]
    (cosK sinK : K → K) (cfg : AlignmentCfg K) (w h : Nat)
    (steps : List (Option (AlignmentResult K) × Option (AlignmentResult K))) :
    ((runSeq cosK sinK (initState cfg w h) steps).converged = true ↔
      ∃ i, ∃ hi : i < steps.length, ∃ r,
        stepOutcome (steps.get ⟨i, hi⟩) = some r ∧
        r.rms_residual < ((3 : K) : WithTop K) ∧ 5 ≤ i + 1) ∧
    (steps.length < 5 →
      (runSeq cosK sinK (initState cfg w h) steps).converged = false) := by
  have h0 : (initState (K := K) cfg w h).update_count = 0 := rfl
  have hc0 : (initState (K := K) cfg w h).converged = false := rfl
  have hiff : ((runSeq cosK sinK (initState cfg w h) steps).converged = true ↔
      ∃ i, ∃ hi : i < steps.length, ∃ r,
        stepOutcome (steps.get ⟨i, hi⟩) = some r ∧
        r.rms_residual < ((3 : K) : WithTop K) ∧ 5 ≤ i + 1) := by
    rw [runSeq_converged_iff cosK sinK (initState cfg w h) steps]
    constructor
    · rintro (hc | ⟨i, hi, r, hr, h3, h5⟩)
      · rw [hc0] at hc
        exact absurd hc (by simp)
      · rw [h0] at h5
        exact ⟨i, hi, r, hr, h3, by omega⟩
    · rintro ⟨i, hi, r, hr, h3, h5⟩
      exact Or.inr ⟨i, hi, r, hr, h3, by rw [h0]; omega⟩
  refine ⟨hiff, ?_⟩
  intro hlen
  cases hb : (runSeq cosK sinK (initState cfg w h) steps).converged with
  | false => rfl
  | true =>
    obtain ⟨i, hi, r, _, _, h5⟩ := hiff.mp hb
    omega

/-- C5 witness: an empty update run (fewer than 5 updates) has not
converged. -/
theorem c5_witness :
    (runSeq (fun _ => (0 : ℚ)) (fun _ => 0) (initState defaultCfg 1920 1080)
      []).converged = false :=
  (c5_convergence_amended (fun _ => (0 : ℚ)) (fun _ => 0) defaultCfg
    1920 1080 []).2 (by decide)

/-- C2 (code bug): in the sub-sampled branch (more than 200 points) the
code computes `np.median(slopes[valid])` although `slopes` has already
been restricted to the valid pairs, so whenever the kept random pairs
contain at least 3 valid pairs and at least one invalid one, the boolean
mask no longer matches the array length and `_theil_sen` raises an
`IndexError` instead of returning the `(slope, intercept, rms)` triple
promised by its own docstring. -/
theorem c2_theil_sen_sampled_raises {K : Type} [LinearOrderedField K]
    (sqrtK : K → K) (draw : List (Nat × Nat)) (x y : List K)
    (hn : 200 < x.length)
    (h3 : 3 ≤ (((draw.filter fun p => p.1 ≠ p.2).map fun p =>
      decide ((30 : K) < |x.getD p.2 0 - x.getD p.1 0|)).count true))
    (hlt : (((draw.filter fun p => p.1 ≠ p.2).map fun p =>
      decide ((30 : K) < |x.getD p.2 0 - x.getD p.1 0|)).count true)
      < (draw.filter fun p => p.1 ≠ p.2).length) :
    theilSen sqrtK draw x y = Option.none := by
  simp only [theilSen]
  rw [if_neg (by omega : ¬ x.length ≤ 200)]
  rw [if_neg (not_lt.mpr h3)]
  have hkv : (draw.filter fun p => p.1 ≠ p.2).length =
      ((draw.filter fun p => p.1 ≠ p.2).map fun p =>
        decide ((30 : K) < |x.getD p.2 0 - x.getD p.1 0|)).length := by
    rw [List.length_map]
  have hslopes :
      ((((draw.filter fun p => p.1 ≠ p.2).zip
          ((draw.filter fun p => p.1 ≠ p.2).map fun p =>
            decide ((30 : K) < |x.getD p.2 0 - x.getD p.1 0|))).filter
          fun q => q.2).map fun q =>
          (y.getD q.1.2 0 - y.getD q.1.1 0) /
            (x.getD q.1.2 0 - x.getD q.1.1 0)).length =
      (((draw.filter fun p => p.1 ≠ p.2).map fun p =>
        decide ((30 : K) < |x.getD p.2 0 - x.getD p.1 0|)).count true) := by
    rw [List.length_map]
    exact zip_filter_length _ _ hkv
  simp only [npBoolIndex]
  rw [if_neg (by rw [hslopes, List.length_map]; omega)]
  rfl

/-- C2 witness: 201 equally spaced abscissae put `_theil_sen` in the
sub-sampled branch, and a kept draw with three wide pairs and two narrow
ones makes it raise instead of returning a triple. -/
theorem c2_witness :
    200 < xs201.length ∧
    theilSen (fun q => q) drawMixed xs201 ys201 = Option.none := by
  have hn : 200 < xs201.length := by
    rw [xs201_length]
    norm_num
  have h3 : 3 ≤ (((drawMixed.filter fun p => p.1 ≠ p.2).map fun p =>
      decide ((30 : ℚ) < |xs201.getD p.2 0 - xs201.getD p.1 0|)).count true) := by
    rw [drawMixed_flags]
    decide
  have hlt : (((drawMixed.filter fun p => p.1 ≠ p.2).map fun p =>
      decide ((30 : ℚ) < |xs201.getD p.2 0 - xs201.getD p.1 0|)).count true)
      < (drawMixed.filter fun p => p.1 ≠ p.2).length := by
    rw [drawMixed_flags,
      show (drawMixed.filter fun p => p.1 ≠ p.2).length = 5 from by decide]
    decide
  exact ⟨hn,
    c2_theil_sen_sampled_raises (fun q => q) drawMixed xs201 ys201 hn h3 hlt⟩

/-- C7: the cached warp pair splits the smoothed correction symmetrically
(left eye gets +half rotation and +half offset, right eye the negated
halves), and the per-eye 2×3 affine built by `_rotation_matrix` acts on a
point exactly as "rotate about the frame center, then translate
vertically". -/
theorem c7_warp_split (st : AlignerState ℝ) (cx cy theta ty : ℝ) (p : ℝ × ℝ) :
    (buildWarpMatrices Real.cos Real.sin st).warps =
      some (rotationMatrix Real.cos Real.sin ((st.frame_w : ℝ) / 2)
              ((st.frame_h : ℝ) / 2) (st.smooth_dtheta / 2) (st.smooth_dy / 2),
            rotationMatrix Real.cos Real.sin ((st.frame_w : ℝ) / 2)
              ((st.frame_h : ℝ) / 2) (-(st.smooth_dtheta / 2))
              (-(st.smooth_dy / 2))) ∧
    applyAffine (rotationMatrix Real.cos Real.sin cx cy theta ty) p =
      specRotateThenTranslate cx cy theta ty p := by
  refine ⟨rfl, ?_⟩
  simp only [applyAffine, rotationMatrix, specRotateThenTranslate]
  rw [Prod.mk.injEq]
  constructor <;> ring

/-- C9: every estimate published by a successful update respects the
configured bounds and the data-model ranges — the epipolar path clamps
|offset| to `max_correction_px` and |rotation| to
`radians(max_correction_deg)` and its confidence (inliers over pre-filter
matches) lies in [0,1]; the phase path gates |offset| against the maximum,
has zero rotation and confidence `min(response, 1) ∈ [0,1]`; and the
smoothing step keeps the published smoothed offset/rotation inside any
bound that contains both the previous smoothed value and the new
measurement, while copying method and confidence verbatim.  Methods are
by construction in {epipolar, phase, none}. -/
theorem c9_estimate_bounds {K : Type} [LinearOrderedField K] [FloorRing K] :
    (∀ (piK : K) (sqrtK : K → K) (draw : List (Nat × Nat))
        (cfg : AlignmentCfg K) (frameW : Nat) (ptsL ptsR : List (K × K))
        (nTotal : Nat) (t : K) (r : AlignmentResult K),
      0 ≤ cfg.max_correction_px → 0 ≤ radians piK cfg.max_correction_deg →
      ptsL.length ≤ nTotal →
      epipolarRegression piK sqrtK draw cfg frameW ptsL ptsR nTotal t = some r →
      |r.dy| ≤ cfg.max_correction_px ∧
      |r.dtheta| ≤ radians piK cfg.max_correction_deg ∧
      0 ≤ r.confidence ∧ r.confidence ≤ 1 ∧ r.method = Method.epipolar) ∧
    (∀ (cfg : AlignmentCfg K) (scale : K) (shift : K × K) (response t : K)
        (r : AlignmentResult K),
      phaseAlign cfg scale shift response t = some r →
      |r.dy| ≤ cfg.max_correction_px ∧ r.dtheta = 0 ∧
      0 ≤ r.confidence ∧ r.confidence ≤ 1 ∧ r.method = Method.phase) ∧
    (∀ (cosK sinK : K → K) (st : AlignerState K) (r : AlignmentResult K)
        (M Mt : K),
      0 ≤ st.cfg.smoothing → st.cfg.smoothing ≤ 1 →
      |st.smooth_dy| ≤ M → |r.dy| ≤ M →
      |st.smooth_dtheta| ≤ Mt → |r.dtheta| ≤ Mt →
      |(applyResult cosK sinK st r).smooth_dy| ≤ M ∧
      |(applyResult cosK sinK st r).smooth_dtheta| ≤ Mt ∧
      (applyResult cosK sinK st r).result.dy =
        (applyResult cosK sinK st r).smooth_dy ∧
      (applyResult cosK sinK st r).result.dtheta =
        (applyResult cosK sinK st r).smooth_dtheta ∧
      (applyResult cosK sinK st r).result.method = r.method ∧
      (applyResult cosK sinK st r).result.confidence = r.confidence) := by
  refine ⟨?_, ?_, ?_⟩
  · intro piK sqrtK draw cfg frameW ptsL ptsR nTotal t r hpx hdeg hnt hsome
    simp only [epipolarRegression] at hsome
    by_cases hlen : ptsL.length < 4
    · rw [if_pos hlen] at hsome
      exact absurd hsome (by simp)
    · rw [if_neg hlen] at hsome
      rw [Option.map_eq_some'] at hsome
      obtain ⟨tri, _, hrt⟩ := hsome
      subst hrt
      refine ⟨abs_npClip_le _ _ hpx, abs_npClip_le _ _ hdeg, ?_, ?_, rfl⟩
      · exact div_nonneg (Nat.cast_nonneg _) (Nat.cast_nonneg _)
      · have hpos : (0 : K) < ((max nTotal 1 : Nat) : K) := by
          have h01 : (0 : Nat) < max nTotal 1 :=
            lt_of_lt_of_le Nat.zero_lt_one (le_max_right nTotal 1)
          exact_mod_cast h01
        rw [div_le_one hpos]
        have hle : ptsL.length ≤ max nTotal 1 :=
          le_trans hnt (le_max_left nTotal 1)
        exact_mod_cast hle
  · intro cfg scale shift response t r hsome
    simp only [phaseAlign] at hsome
    by_cases h1 : cfg.max_correction_px < |shift.2 * (1 / scale)|
    · rw [if_pos h1] at hsome
      exact absurd hsome (by simp)
    · rw [if_neg h1] at hsome
      by_cases h2 : response < 3/20
      · rw [if_pos h2] at hsome
        exact absurd hsome (by simp)
      · rw [if_neg h2] at hsome
        cases Option.some.inj hsome
        refine ⟨not_lt.mp h1, rfl, ?_, min_le_right _ _, rfl⟩
        exact le_min (le_trans (by norm_num) (not_lt.mp h2)) zero_le_one
  · intro cosK sinK st r M Mt hs0 hs1 hdyM hrdyM hdtM hrdtM
    have ha0 : 0 ≤ (if st.converged = true then
        min (st.cfg.smoothing * (5/2)) (17/20) else st.cfg.smoothing) := by
      split
      · exact le_min (by nlinarith) (by norm_num)
      · exact hs0
    have ha1 : (if st.converged = true then
        min (st.cfg.smoothing * (5/2)) (17/20) else st.cfg.smoothing) ≤ 1 := by
      split
      · exact le_trans (min_le_right _ _) (by norm_num)
      · exact hs1
    exact ⟨smooth_bound _ _ _ _ ha0 ha1 hdyM hrdyM,
      smooth_bound _ _ _ _ ha0 ha1 hdtM hrdtM, rfl, rfl, rfl, rfl⟩

/-- C9 witness: the phase estimate for a 5 px vertical shift with response
0.5 at scale 1 on default configuration satisfies all the bounds. -/
theorem c9_witness :
    phaseAlign (defaultCfg (K := ℚ)) 1 (0, 5) (1/2) 0 = some c9PhaseRes ∧
    (|c9PhaseRes.dy| ≤ (defaultCfg (K := ℚ)).max_correction_px ∧
     c9PhaseRes.dtheta = 0 ∧ 0 ≤ c9PhaseRes.confidence ∧
     c9PhaseRes.confidence ≤ 1 ∧ c9PhaseRes.method = Method.phase) := by
  have hsome : phaseAlign (defaultCfg (K := ℚ)) 1 (0, 5) (1/2) 0 =
      some c9PhaseRes := by
    simp only [phaseAlign]
    rw [if_neg (by norm_num [defaultCfg] :
      ¬ ((defaultCfg (K := ℚ)).max_correction_px <
        |((0 : ℚ), (5 : ℚ)).2 * (1 / 1)|))]
    rw [if_neg (by norm_num : ¬ ((1/2 : ℚ) < 3/20))]
    rfl
  exact ⟨hsome,
    (c9_estimate_bounds (K := ℚ)).2.1 defaultCfg 1 (0, 5) (1/2) 0 c9PhaseRes
      hsome⟩

/-- C8 counterexample: the claim fails as a statement about every frame
size — on a 4×4 frame, a smoothed offset of 80 px (within the default
configured maximum of 80 px, rotation zero) yields half-shifts of ±40 px
that push every source pixel outside the frame, so the recomputed overlap
mask has no valid pixel at all. -/
theorem c8_counterexample :
    |(80 : ℝ)| ≤ (defaultCfg (K := ℝ)).max_correction_px ∧
    ¬ maskNonempty (buildWarpMatrices Real.cos Real.sin stTinyFrame) := by
  constructor
  · have h80 : (defaultCfg (K := ℝ)).max_correction_px = 80 := rfl
    rw [h80]
    norm_num
  · rintro ⟨m, x, y, hm, hin, hmx⟩
    have hmask : (buildWarpMatrices Real.cos Real.sin stTinyFrame).overlap_mask =
        some (erodedMaskFn stTinyFrame.frame_w stTinyFrame.frame_h
          (rotationMatrix Real.cos Real.sin ((stTinyFrame.frame_w : ℝ) / 2)
            ((stTinyFrame.frame_h : ℝ) / 2) (stTinyFrame.smooth_dtheta / 2)
            (stTinyFrame.smooth_dy / 2))
          (rotationMatrix Real.cos Real.sin ((stTinyFrame.frame_w : ℝ) / 2)
            ((stTinyFrame.frame_h : ℝ) / 2) (-(stTinyFrame.smooth_dtheta / 2))
            (-(stTinyFrame.smooth_dy / 2)))) := rfl
    rw [hmask] at hm
    cases Option.some.inj hm
    have hdy80 : stTinyFrame.smooth_dy = (80 : ℝ) := rfl
    have hdt0 : stTinyFrame.smooth_dtheta = (0 : ℝ) := rfl
    have hw4 : stTinyFrame.frame_w = 4 := rfl
    have hh4 : stTinyFrame.frame_h = 4 := rfl
    rw [hdy80, hdt0, hw4, hh4] at hmx
    have hc2 : ((4 : Nat) : ℝ) / 2 = 2 := by norm_num
    have h40 : (80 : ℝ) / 2 = 40 := by norm_num
    have h02 : (0 : ℝ) / 2 = 0 := by norm_num
    rw [hc2, h40, h02] at hmx
    have hin4 : inFrame 4 4 x y := hin
    simp only [erodedMaskFn, List.all_eq_true] at hmx
    have h22 := hmx 2 (by decide) 2 (by decide)
    have hxi : x + ((2 : Nat) : Int) - 2 = x := by push_cast; ring
    have hyi : y + ((2 : Nat) : Int) - 2 = y := by push_cast; ring
    rw [hxi, hyi, decide_eq_true hin4] at h22
    rw [Bool.not_true, Bool.false_or] at h22
    rw [overlapMaskAt, Bool.and_eq_true] at h22
    have hL := h22.1
    have hcs : Real.cos 0 * Real.cos 0 + Real.sin 0 * Real.sin 0 = 1 := by
      rw [Real.cos_zero, Real.sin_zero]
      ring
    rw [warpMaskAt_rotation 4 4 Real.cos Real.sin 2 2 0 40 hcs x y,
      Real.cos_zero, Real.sin_zero] at hL
    have e1 : (2 : ℝ) + 1 * ((x : ℝ) - 2) + 0 * ((y : ℝ) - 2) - 0 * 40
        = ((x : Int) : ℝ) := by ring
    have e2 : (2 : ℝ) - 0 * ((x : ℝ) - 2) + 1 * ((y : ℝ) - 2) - 1 * 40
        = (((y - 40 : Int)) : ℝ) := by push_cast; ring
    rw [e1, e2, round_intCast, round_intCast] at hL
    have hsrc := of_decide_eq_true hL
    have hy40 : (0 : Int) ≤ y - 40 := hsrc.2.2.1
    have hy4 : y < 4 := hin4.2.2.2
    omega

/-- C8 (amended): at zero smoothed correction the recomputed overlap mask
is the full frame (every in-frame pixel valid, for any frame size), and on
the nominal 1920×1080 frame the mask is non-empty whenever the smoothed
offset stays within the default 80 px maximum and the rotation within the
default 2° maximum (the center pixel always survives); the original
claim's universal frame-independence fails only because a configured
maximum comparable to the frame size can shift the two eyes entirely
apart. -/
theorem c8_overlap_mask_amended :
    (∀ (st : AlignerState ℝ) (x y : Int), st.smooth_dy = 0 →
      st.smooth_dtheta = 0 → inFrame st.frame_w st.frame_h x y →
      ∀ m, (buildWarpMatrices Real.cos Real.sin st).overlap_mask = some m →
        m x y = true) ∧
    (∀ st : AlignerState ℝ, st.frame_w = 1920 → st.frame_h = 1080 →
      |st.smooth_dy| ≤ 80 → |st.smooth_dtheta| ≤ radians Real.pi 2 →
      ∃ x y m,
        (buildWarpMatrices Real.cos Real.sin st).overlap_mask = some m ∧
        inFrame st.frame_w st.frame_h x y ∧ m x y = true) := by
  constructor
  · intro st x y hdy hdt hin m hm
    have hmask : (buildWarpMatrices Real.cos Real.sin st).overlap_mask =
        some (erodedMaskFn st.frame_w st.frame_h
          (rotationMatrix Real.cos Real.sin ((st.frame_w : ℝ) / 2)
            ((st.frame_h : ℝ) / 2) (st.smooth_dtheta / 2) (st.smooth_dy / 2))
          (rotationMatrix Real.cos Real.sin ((st.frame_w : ℝ) / 2)
            ((st.frame_h : ℝ) / 2) (-(st.smooth_dtheta / 2))
            (-(st.smooth_dy / 2)))) := rfl
    rw [hmask] at hm
    cases Option.some.inj hm
    rw [hdy, hdt, zero_div, neg_zero]
    exact eroded_full Real.cos Real.sin Real.cos_zero Real.sin_zero _ _
      st.frame_w st.frame_h x y
  · intro st hw hh hdy hdt
    refine ⟨960, 540,
      erodedMaskFn st.frame_w st.frame_h
        (rotationMatrix Real.cos Real.sin ((st.frame_w : ℝ) / 2)
          ((st.frame_h : ℝ) / 2) (st.smooth_dtheta / 2) (st.smooth_dy / 2))
        (rotationMatrix Real.cos Real.sin ((st.frame_w : ℝ) / 2)
          ((st.frame_h : ℝ) / 2) (-(st.smooth_dtheta / 2))
          (-(st.smooth_dy / 2))),
      rfl, ?_, ?_⟩
    · rw [hw, hh]
      decide
    · rw [hw, hh]
      have hcx : ((1920 : Nat) : ℝ) / 2 = 960 := by norm_num
      have hcy : ((1080 : Nat) : ℝ) / 2 = 540 := by norm_num
      rw [hcx, hcy]
      have hty : |st.smooth_dy / 2| ≤ 40 := by
        have habs : |st.smooth_dy / 2| = |st.smooth_dy| / 2 := by
          rw [abs_div]
          norm_num
        rw [habs]
        linarith
      exact eroded_center_fullHD (st.smooth_dtheta / 2) (st.smooth_dy / 2) hty

/-- C8 witness: the freshly constructed 1920×1080 aligner (zero smoothed
correction, within the default maxima) has a non-empty overlap mask. -/
theorem c8_witness :
    |stFullHD.smooth_dy| ≤ (80 : ℝ) ∧
    ∃ x y m,
      (buildWarpMatrices Real.cos Real.sin stFullHD).overlap_mask = some m ∧
      inFrame stFullHD.frame_w stFullHD.frame_h x y ∧ m x y = true := by
  have hz : stFullHD.smooth_dy = 0 := rfl
  have hzt : stFullHD.smooth_dtheta = 0 := rfl
  have h1 : |stFullHD.smooth_dy| ≤ (80 : ℝ) := by
    rw [hz, abs_zero]
    norm_num
  have h2 : |stFullHD.smooth_dtheta| ≤ radians Real.pi 2 := by
    rw [hzt, abs_zero, radians]
    positivity
  exact ⟨h1, c8_overlap_mask_amended.2 stFullHD rfl rfl h1 h2⟩

end ClaimTheorems

end Piccolo
